import Mathlib

/-!
Verification of the debounced-reactive-value pipeline implemented by the
`useDebounce` composable (src/src/composables/useFetch.ts, lines 28-38):

  export function useDebounce<T>(source: Ref<T>, delay = 300) {
    const debounced = ref<T>(source.value) as Ref<T>
    let timer: ReturnType<typeof setTimeout>
    watch(source, (val) => {
      clearTimeout(timer)
      timer = setTimeout(() => { debounced.value = val }, delay)
    })
    return debounced
  }

The embedding models the composable as a timed state machine.  Time is a
natural number of milliseconds.  The host scheduler (setTimeout /
clearTimeout) is modelled explicitly: a queue of pending timer entries,
each with a numeric handle, an absolute fire time and the captured value
`val`.  `clearTimeout` removes the entry whose handle equals the stored
`timer` variable; a fired or cancelled entry leaves the queue, and
`clearTimeout` on a stale handle is a no-op, exactly as in the host
runtime.  The watcher teardown (Vue stopping the watcher when the owning
scope is disposed) only stops delivery of change notifications; the code
contains no cleanup of a pending timeout.
-/

namespace Debounce

/-- One pending host-scheduler entry created by `setTimeout` on line 34:
`id` is the opaque handle returned by `setTimeout`, `fireAt` the absolute
time (creation time plus `delay`) at which it fires, and `val` the source
value captured by the arrow-function closure `() => { debounced.value = val }`. -/
structure Timer (T : Type) where
  id : Nat
  fireAt : Nat
  val : T
deriving Repr, DecidableEq

/-- State of one `useDebounce` pipeline instance together with the slice of
the host runtime it touches.

Fields from the code (lines 28-35):
* `delay` — the `delay` parameter (immutable per instance);
* `debounced` — the value of the returned `debounced` ref (line 29);
* `timerVar` — the closure-local `let timer` variable (line 30): `none`
  before the first assignment, afterwards the handle of the most recently
  created timeout (possibly stale once that timeout has fired);
* `pending` — the host scheduler's queue of not-yet-fired, not-cancelled
  timeouts belonging to this instance;
* `nextId` — the next fresh handle the host allocates;
* `watcherActive` — whether the `watch(source, ...)` subscription of
  line 32 is still delivering notifications (false after the owning scope
  is disposed / the watcher stopped).

Instrumentation (ghost state, mutated nowhere except where noted):
* `sourceVal` — the source ref's current value;
* `sourceHist` — every value the source cell has held, oldest first
  (construction value, then each written value);
* `mutations` — the list of writes performed on the `debounced` ref after
  construction, in order (appended to exactly when a timeout callback runs
  `debounced.value = val`). -/
structure State (T : Type) where
  delay : Nat
  debounced : T
  timerVar : Option Nat
  pending : List (Timer T)
  nextId : Nat
  watcherActive : Bool
  sourceVal : T
  sourceHist : List T
  mutations : List T
deriving Repr, DecidableEq

variable {T U : Type}

/-- State produced by `useDebounce(source, delay)` itself (lines 28-32,
before any change notification): `debounced` is initialised to
`source.value` (line 29), the `timer` variable is declared but unassigned
(line 30), no timeout has been scheduled, and the watcher of line 32 is
registered (it does not run its callback at registration — `watch` without
`immediate` is lazy). -/
def useDebounceInit (v0 : T) (delay : Nat) : State T :=
  { delay := delay
    debounced := v0
    timerVar := none
    pending := []
    nextId := 0
    watcherActive := true
    sourceVal := v0
    sourceHist := [v0]
    mutations := [] }

/-- The host runs the callback of a due timeout: line 34's
`() => { debounced.value = val }` writes the captured value to the
`debounced` ref, and the host removes the entry from its queue.  Note the
code does not touch the `timer` variable here, so `timerVar` keeps the
now-stale handle.  This runs whether or not the watcher is still active:
nothing in the code cancels a pending timeout at teardown. -/
def fireTimer (s : State T) (tm : Timer T) : State T :=
  { s with
    debounced := tm.val
    mutations := s.mutations ++ [tm.val]
    pending := s.pending.filter (fun u => u.id ≠ tm.id) }

/-- Advance the host clock to time `t`: every pending timeout whose fire
time has been reached runs, in queue order. -/
def fireDue (s : State T) (t : Nat) : State T :=
  (s.pending.filter (fun tm => tm.fireAt ≤ t)).foldl fireTimer s

/-- Line 33, `clearTimeout(timer)`: remove the entry whose handle is the
current value of the `timer` variable from the host queue.  A no-op when
the variable is unassigned, or when the handle is stale (already fired)
or was already cancelled — exactly the host semantics of `clearTimeout`. -/
def clearTimeoutVar (s : State T) : State T :=
  match s.timerVar with
  | none => s
  | some i => { s with pending := s.pending.filter (fun tm => tm.id ≠ i) }

/-- The watch callback of lines 32-35, run when a change notification
carrying value `v` is delivered at time `t`:
`clearTimeout(timer)` then `timer = setTimeout(..., delay)`, the new
timeout being due at `t + delay` with captured value `v`. -/
def onSourceChange (s : State T) (t : Nat) (v : T) : State T :=
  let s1 := clearTimeoutVar s
  { s1 with
    pending := s1.pending ++ [⟨s1.nextId, t + s1.delay, v⟩]
    timerVar := some s1.nextId
    nextId := s1.nextId + 1 }

/-- External events driving one pipeline instance, each stamped with the
absolute time at which it happens:
* `write t v` — the caller writes `v` to the source ref at time `t`; the
  watcher (if still active) receives the change notification;
* `dispose t` — the owning scope is disposed at time `t`, stopping the
  watcher of line 32 (Vue removes the subscription; the code schedules no
  cleanup of a pending timeout);
* `settle t` — pure passage of time up to `t` (an observation point). -/
inductive Op (T : Type) where
  | write (t : Nat) (v : T)
  | dispose (t : Nat)
  | settle (t : Nat)
deriving Repr, DecidableEq

/-- Process one event: first the host clock advances to the event's time
(due timeouts fire), then the event itself happens.  A write always
mutates the source cell and its history; the watch callback additionally
runs only while the subscription is active. -/
def applyOp (s : State T) (op : Op T) : State T :=
  match op with
  | .write t v =>
    let s1 := fireDue s t
    let s2 := { s1 with sourceVal := v, sourceHist := s1.sourceHist ++ [v] }
    if s2.watcherActive then onSourceChange s2 t v else s2
  | .dispose t =>
    let s1 := fireDue s t
    { s1 with watcherActive := false }
  | .settle t => fireDue s t

/-- Run a pipeline instance through a sequence of timed events. -/
def run (s : State T) (ops : List (Op T)) : State T :=
  ops.foldl applyOp s

/-- A burst of source writes as a list of (time, value) pairs turned into
events. -/
def writesOps (ws : List (Nat × T)) : List (Op T) :=
  ws.map (fun p => Op.write p.1 p.2)

/-- Values carried by the write events of a trace, in order: together with
the construction value these are exactly the values the source cell ever
held. -/
def opsWriteValues (ops : List (Op T)) : List T :=
  ops.filterMap (fun op => match op with
    | .write _ v => some v
    | _ => none)

/-- Time stamp of an event. -/
def Op.time : Op T → Nat
  | .write t _ => t
  | .dispose t => t
  | .settle t => t

theorem run_nil (s : State T) : run s [] = s := rfl

theorem run_cons (s : State T) (op : Op T) (ops : List (Op T)) :
    run s (op :: ops) = run (applyOp s op) ops := rfl

theorem run_append (s : State T) (l1 l2 : List (Op T)) :
    run s (l1 ++ l2) = run (run s l1) l2 := by
  simp [run]

theorem fireDue_of_nil (s : State T) (t : Nat) (h : s.pending = []) :
    fireDue s t = s := by
  simp [fireDue, h]

theorem fireDue_of_single_early (s : State T) (t : Nat) (tm : Timer T)
    (h : s.pending = [tm]) (hlt : t < tm.fireAt) : fireDue s t = s := by
  simp [fireDue, h, List.filter_cons, Nat.not_le_of_lt hlt]

theorem fireDue_of_single_due (s : State T) (t : Nat) (tm : Timer T)
    (h : s.pending = [tm]) (hle : tm.fireAt ≤ t) :
    fireDue s t = fireTimer s tm := by
  simp [fireDue, h, List.filter_cons, hle]

theorem fireTimer_single_pending (s : State T) (tm : Timer T)
    (h : s.pending = [tm]) : (fireTimer s tm).pending = [] := by
  simp [fireTimer, h]

/-- Running timeout callbacks touches only the debounced ref, the mutation
log and the scheduler queue; every other field is untouched. -/
theorem foldl_fireTimer_preserves (l : List (Timer T)) :
    ∀ s : State T,
      (l.foldl fireTimer s).delay = s.delay ∧
      (l.foldl fireTimer s).timerVar = s.timerVar ∧
      (l.foldl fireTimer s).nextId = s.nextId ∧
      (l.foldl fireTimer s).watcherActive = s.watcherActive ∧
      (l.foldl fireTimer s).sourceVal = s.sourceVal ∧
      (l.foldl fireTimer s).sourceHist = s.sourceHist := by
  induction l with
  | nil => intro s; simp
  | cons a l ih => intro s; simpa [fireTimer] using ih (fireTimer s a)

theorem fireDue_preserves (s : State T) (t : Nat) :
    (fireDue s t).delay = s.delay ∧
    (fireDue s t).timerVar = s.timerVar ∧
    (fireDue s t).nextId = s.nextId ∧
    (fireDue s t).watcherActive = s.watcherActive ∧
    (fireDue s t).sourceVal = s.sourceVal ∧
    (fireDue s t).sourceHist = s.sourceHist :=
  foldl_fireTimer_preserves _ s

/-- At most one entry of the host queue belongs to the instance, and when
one does, the `timer` variable holds its handle. -/
def AtMostOne (s : State T) : Prop :=
  s.pending = [] ∨ ∃ tm, s.pending = [tm] ∧ s.timerVar = some tm.id

theorem clearTimeoutVar_of_atMostOne (s : State T) (h : AtMostOne s) :
    (clearTimeoutVar s).pending = [] ∧
    (clearTimeoutVar s).delay = s.delay ∧
    (clearTimeoutVar s).timerVar = s.timerVar ∧
    (clearTimeoutVar s).nextId = s.nextId ∧
    (clearTimeoutVar s).watcherActive = s.watcherActive ∧
    (clearTimeoutVar s).sourceVal = s.sourceVal ∧
    (clearTimeoutVar s).sourceHist = s.sourceHist ∧
    (clearTimeoutVar s).debounced = s.debounced ∧
    (clearTimeoutVar s).mutations = s.mutations := by
  rcases h with h | ⟨tm, hp, hv⟩
  · cases htv : s.timerVar <;> simp [clearTimeoutVar, htv, h]
  · simp [clearTimeoutVar, hv, hp]

theorem fireDue_atMostOne (s : State T) (t : Nat) (h : AtMostOne s) :
    AtMostOne (fireDue s t) := by
  rcases h with h | ⟨tm, hp, hv⟩
  · rw [fireDue_of_nil s t h]; exact Or.inl h
  · by_cases hle : tm.fireAt ≤ t
    · rw [fireDue_of_single_due s t tm hp hle]
      exact Or.inl (fireTimer_single_pending s tm hp)
    · rw [fireDue_of_single_early s t tm hp (Nat.lt_of_not_le hle)]
      exact Or.inr ⟨tm, hp, hv⟩

/-- Effect of one delivered change notification while the watcher is
active: whatever the instance's timer state was, afterwards the host queue
holds exactly one fresh full-`delay` timeout capturing the new value, and
the debounced ref and the mutation log are exactly those produced by the
clock reaching the notification time. -/
theorem applyOp_write_shape (s : State T) (t : Nat) (v : T)
    (h : AtMostOne s) (ha : s.watcherActive = true) :
    (applyOp s (Op.write t v)).pending = [⟨s.nextId, t + s.delay, v⟩] ∧
    (applyOp s (Op.write t v)).timerVar = some s.nextId ∧
    (applyOp s (Op.write t v)).nextId = s.nextId + 1 ∧
    (applyOp s (Op.write t v)).watcherActive = true ∧
    (applyOp s (Op.write t v)).delay = s.delay ∧
    (applyOp s (Op.write t v)).sourceVal = v ∧
    (applyOp s (Op.write t v)).debounced = (fireDue s t).debounced ∧
    (applyOp s (Op.write t v)).mutations = (fireDue s t).mutations ∧
    (applyOp s (Op.write t v)).sourceHist = (fireDue s t).sourceHist ++ [v] := by
  obtain ⟨hd, hv', hn, hw, hsv, hsh⟩ := fireDue_preserves s t
  have h1 : AtMostOne (fireDue s t) := fireDue_atMostOne s t h
  set s1 := fireDue s t with hs1
  have h2 : AtMostOne ({ s1 with sourceVal := v, sourceHist := s1.sourceHist ++ [v] } : State T) := by
    rcases h1 with h1 | ⟨tm, hp, htv⟩
    · exact Or.inl h1
    · exact Or.inr ⟨tm, hp, htv⟩
  obtain ⟨c1, c2, c3, c4, c5, c6, c7, c8, c9⟩ := clearTimeoutVar_of_atMostOne _ h2
  simp only [applyOp]
  rw [← hs1]
  have hact : ({ s1 with sourceVal := v, sourceHist := s1.sourceHist ++ [v] } : State T).watcherActive = true := by
    simpa using hw.trans ha
  rw [if_pos hact]
  simp only [onSourceChange, c1, c2, c3, c4, c5, c6, c7, c8, c9]
  simp_all
  exact ⟨hn, hd⟩

/-- Reachable-state invariant: the instance owns at most one queue entry
(whose handle the `timer` variable then holds), the debounced ref holds a
value the source cell has held, and so does any captured timeout value. -/
def Inv (s : State T) : Prop :=
  AtMostOne s ∧ s.debounced ∈ s.sourceHist ∧ ∀ tm ∈ s.pending, tm.val ∈ s.sourceHist

theorem Inv_init (v0 : T) (delay : Nat) : Inv (useDebounceInit v0 delay) := by
  refine ⟨Or.inl rfl, ?_, ?_⟩ <;> simp [useDebounceInit]

theorem Inv_fireDue (s : State T) (t : Nat) (h : Inv s) : Inv (fireDue s t) := by
  obtain ⟨hA, hdm, hpm⟩ := h
  rcases hA with hp | ⟨tm, hp, hv⟩
  · rw [fireDue_of_nil s t hp]; exact ⟨Or.inl hp, hdm, hpm⟩
  · by_cases hle : tm.fireAt ≤ t
    · rw [fireDue_of_single_due s t tm hp hle]
      refine ⟨Or.inl (fireTimer_single_pending s tm hp), ?_, ?_⟩
      · simpa [fireTimer] using hpm tm (by rw [hp]; exact List.mem_singleton.mpr rfl)
      · intro u hu
        rw [fireTimer_single_pending s tm hp] at hu
        cases hu
    · rw [fireDue_of_single_early s t tm hp (Nat.lt_of_not_le hle)]
      exact ⟨Or.inr ⟨tm, hp, hv⟩, hdm, hpm⟩

theorem Inv_applyOp (s : State T) (op : Op T) (h : Inv s) : Inv (applyOp s op) := by
  cases op with
  | settle t => exact Inv_fireDue s t h
  | dispose t =>
    obtain ⟨hA, hdm, hpm⟩ := Inv_fireDue s t h
    simp only [applyOp]
    rcases hA with hp | ⟨tm, hp, hv⟩
    · exact ⟨Or.inl hp, hdm, hpm⟩
    · exact ⟨Or.inr ⟨tm, hp, hv⟩, hdm, hpm⟩
  | write t v =>
    obtain ⟨hA1, hdm1, hpm1⟩ := Inv_fireDue s t h
    simp only [applyOp]
    set s1 := fireDue s t with hs1
    set s2 : State T := { s1 with sourceVal := v, sourceHist := s1.sourceHist ++ [v] } with hs2
    have hA2 : AtMostOne s2 := by
      rcases hA1 with hp | ⟨tm, hp, hv⟩
      · exact Or.inl hp
      · exact Or.inr ⟨tm, hp, hv⟩
    have hdm2 : s2.debounced ∈ s2.sourceHist := List.mem_append_left _ hdm1
    have hpm2 : ∀ tm ∈ s2.pending, tm.val ∈ s2.sourceHist := by
      intro tm hmem
      exact List.mem_append_left _ (hpm1 tm hmem)
    by_cases hact : s2.watcherActive = true
    · rw [if_pos hact]
      obtain ⟨c1, c2, c3, c4, c5, c6, c7, c8, c9⟩ := clearTimeoutVar_of_atMostOne s2 hA2
      simp only [onSourceChange]
      refine ⟨Or.inr ⟨⟨(clearTimeoutVar s2).nextId, t + (clearTimeoutVar s2).delay, v⟩, ?_, ?_⟩, ?_, ?_⟩
      · simp [c1]
      · simp
      · simpa [c8, c7] using hdm2
      · intro u hu
        simp only [c1, List.nil_append, List.mem_singleton] at hu
        subst hu
        simp only [c7]
        exact List.mem_append_right _ (List.mem_singleton.mpr rfl)
    · rw [if_neg hact]
      exact ⟨hA2, hdm2, hpm2⟩

theorem Inv_run (s : State T) (ops : List (Op T)) (h : Inv s) : Inv (run s ops) := by
  induction ops generalizing s with
  | nil => exact h
  | cons op ops ih => exact ih _ (Inv_applyOp s op h)

/-- The clearTimeout of line 33 never touches anything but the host
queue. -/
theorem clearTimeoutVar_fields (s : State T) :
    (clearTimeoutVar s).delay = s.delay ∧
    (clearTimeoutVar s).debounced = s.debounced ∧
    (clearTimeoutVar s).timerVar = s.timerVar ∧
    (clearTimeoutVar s).nextId = s.nextId ∧
    (clearTimeoutVar s).watcherActive = s.watcherActive ∧
    (clearTimeoutVar s).sourceVal = s.sourceVal ∧
    (clearTimeoutVar s).sourceHist = s.sourceHist ∧
    (clearTimeoutVar s).mutations = s.mutations := by
  cases htv : s.timerVar <;> simp [clearTimeoutVar, htv]

/-- The source history after one event is the history before it plus the
value written, if the event is a write. -/
theorem applyOp_sourceHist (s : State T) (op : Op T) :
    (applyOp s op).sourceHist = s.sourceHist ++ opsWriteValues [op] := by
  cases op with
  | write t v =>
    obtain ⟨-, -, -, -, -, hsh⟩ := fireDue_preserves s t
    simp only [applyOp]
    by_cases hact : (fireDue s t).watcherActive = true
    · rw [if_pos (by simpa using hact)]
      simp only [onSourceChange]
      obtain ⟨-, -, -, -, -, -, c7, -⟩ :=
        clearTimeoutVar_fields
          ({ fireDue s t with sourceVal := v, sourceHist := (fireDue s t).sourceHist ++ [v] } : State T)
      rw [c7]
      simp [opsWriteValues, hsh]
    · rw [if_neg (by simpa using hact)]
      simp [opsWriteValues, hsh]
  | dispose t =>
    obtain ⟨-, -, -, -, -, hsh⟩ := fireDue_preserves s t
    simpa [applyOp, opsWriteValues] using hsh
  | settle t =>
    obtain ⟨-, -, -, -, -, hsh⟩ := fireDue_preserves s t
    simpa [applyOp, opsWriteValues] using hsh

theorem run_sourceHist (ops : List (Op T)) :
    ∀ s : State T, (run s ops).sourceHist = s.sourceHist ++ opsWriteValues ops := by
  induction ops with
  | nil => intro s; simp [run, opsWriteValues]
  | cons op ops ih =>
    intro s
    rw [run_cons, ih (applyOp s op), applyOp_sourceHist s op]
    cases op <;> simp [opsWriteValues, List.filterMap_cons]

/-- The delay argument is immutable over the instance's whole lifetime. -/
theorem applyOp_delay (s : State T) (op : Op T) : (applyOp s op).delay = s.delay := by
  cases op with
  | write t v =>
    obtain ⟨hd, -, -, -, -, -⟩ := fireDue_preserves s t
    simp only [applyOp]
    by_cases hact : (fireDue s t).watcherActive = true
    · rw [if_pos (by simpa using hact)]
      simp only [onSourceChange]
      obtain ⟨c1, -⟩ :=
        clearTimeoutVar_fields
          ({ fireDue s t with sourceVal := v, sourceHist := (fireDue s t).sourceHist ++ [v] } : State T)
      rw [c1]
      exact hd
    · rw [if_neg (by simpa using hact)]
      exact hd
  | dispose t =>
    obtain ⟨hd, -⟩ := fireDue_preserves s t
    simpa [applyOp] using hd
  | settle t =>
    obtain ⟨hd, -⟩ := fireDue_preserves s t
    simpa [applyOp] using hd

theorem run_delay (ops : List (Op T)) :
    ∀ s : State T, (run s ops).delay = s.delay := by
  induction ops with
  | nil => intro s; rfl
  | cons op ops ih => intro s; rw [run_cons, ih, applyOp_delay]

/-- Writes never stop the watcher. -/
theorem applyOp_write_active (s : State T) (t : Nat) (v : T) :
    (applyOp s (Op.write t v)).watcherActive = s.watcherActive := by
  obtain ⟨-, -, -, hw, -, -⟩ := fireDue_preserves s t
  simp only [applyOp]
  by_cases hact : (fireDue s t).watcherActive = true
  · rw [if_pos (by simpa using hact)]
    simp only [onSourceChange]
    obtain ⟨-, -, -, -, c5, -⟩ :=
      clearTimeoutVar_fields
        ({ fireDue s t with sourceVal := v, sourceHist := (fireDue s t).sourceHist ++ [v] } : State T)
    rw [c5]
    simpa using hw
  · rw [if_neg (by simpa using hact)]
    exact hw

theorem run_writesOps_active (ws : List (Nat × T)) :
    ∀ s : State T, (run s (writesOps ws)).watcherActive = s.watcherActive := by
  induction ws with
  | nil => intro s; rfl
  | cons p ws ih =>
    intro s
    rw [show writesOps (p :: ws) = Op.write p.1 p.2 :: writesOps ws from rfl,
      run_cons, ih, applyOp_write_active]

/-- Core burst lemma: while each next change notification arrives strictly
before the pending timeout's fire time, every step just swaps the pending
timeout for a fresh one capturing the newer value; the debounced ref is
never written. -/
theorem burst_aux (ws : List (Nat × T)) :
    ∀ (s : State T) (a : Nat × T) (n : Nat),
      s.watcherActive = true →
      s.pending = [⟨n, a.1 + s.delay, a.2⟩] →
      s.timerVar = some n →
      List.Chain (fun p q => q.1 < p.1 + s.delay) a ws →
      ∃ m : Nat,
        (run s (writesOps ws)).pending =
          [⟨m, (ws.getLastD a).1 + s.delay, (ws.getLastD a).2⟩] ∧
        (run s (writesOps ws)).timerVar = some m ∧
        (run s (writesOps ws)).delay = s.delay ∧
        (run s (writesOps ws)).watcherActive = true ∧
        (run s (writesOps ws)).debounced = s.debounced ∧
        (run s (writesOps ws)).mutations = s.mutations := by
  induction ws with
  | nil =>
    intro s a n ha hp hv _
    exact ⟨n, by simpa [writesOps, run] using hp, hv, rfl, ha, rfl, rfl⟩
  | cons c ws ih =>
    intro s a n ha hp hv hchain
    rw [List.chain_cons] at hchain
    obtain ⟨hlt, hchain⟩ := hchain
    have hfd : fireDue s c.1 = s :=
      fireDue_of_single_early s c.1 _ hp (by simpa using hlt)
    obtain ⟨w1, w2, w3, w4, w5, w6, w7, w8, w9⟩ :=
      applyOp_write_shape s c.1 c.2 (Or.inr ⟨_, hp, hv⟩) ha
    rw [hfd] at w7 w8
    set s1 := applyOp s (Op.write c.1 c.2) with hs1
    have hpend1 : s1.pending = [⟨s.nextId, c.1 + s1.delay, c.2⟩] := by
      rw [w5]; exact w1
    have hchain1 : List.Chain (fun p q => q.1 < p.1 + s1.delay) c ws := by
      rw [w5]; exact hchain
    obtain ⟨m, r1, r2, r3, r4, r5, r6⟩ := ih s1 c s.nextId w4 hpend1 w2 hchain1
    rw [w5] at r1 r3
    have hrun : run s (writesOps (c :: ws)) = run s1 (writesOps ws) := rfl
    refine ⟨m, ?_, ?_, ?_, ?_, ?_, ?_⟩ <;> rw [hrun]
    · rw [List.getLastD_cons]; exact r1
    · exact r2
    · exact r3
    · exact r4
    · exact r5.trans w7
    · exact r6.trans w8

/-- Once the watcher is stopped, an event only lets due timeouts run:
nothing else of the pipeline's state can change. -/
theorem applyOp_inactive (s : State T) (op : Op T) (h : s.watcherActive = false) :
    (applyOp s op).debounced = (fireDue s op.time).debounced ∧
    (applyOp s op).mutations = (fireDue s op.time).mutations ∧
    (applyOp s op).pending = (fireDue s op.time).pending ∧
    (applyOp s op).watcherActive = false := by
  obtain ⟨-, -, -, hw, -, -⟩ := fireDue_preserves s op.time
  cases op with
  | write t v =>
    simp only [Op.time] at hw
    simp only [applyOp]
    rw [if_neg (by simp [Op.time, hw, h])]
    simp [Op.time, hw, h]
  | dispose t =>
    simp only [Op.time] at hw
    simp [applyOp, Op.time]
  | settle t =>
    simp only [Op.time] at hw
    simp [applyOp, Op.time, hw, h]

/-- A stopped pipeline with an empty queue is frozen forever. -/
theorem run_inactive_nil (ops : List (Op T)) :
    ∀ s : State T, s.watcherActive = false → s.pending = [] →
      (run s ops).debounced = s.debounced ∧
      (run s ops).mutations = s.mutations ∧
      (run s ops).pending = [] ∧
      (run s ops).watcherActive = false := by
  induction ops with
  | nil => intro s h hp; exact ⟨rfl, rfl, hp, h⟩
  | cons op ops ih =>
    intro s h hp
    obtain ⟨a1, a2, a3, a4⟩ := applyOp_inactive s op h
    rw [fireDue_of_nil s op.time hp] at a1 a2 a3
    obtain ⟨b1, b2, b3, b4⟩ := ih (applyOp s op) a4 (a3.trans hp)
    rw [run_cons]
    exact ⟨b1.trans a1, b2.trans a2, b3, b4⟩

/-- A stopped pipeline with one pending timeout either stays as it is (the
timeout never came due during the remaining trace) or performs exactly the
one write that timeout captured, and is frozen from then on. -/
theorem run_inactive_single (ops : List (Op T)) :
    ∀ (s : State T) (tm : Timer T), s.watcherActive = false → s.pending = [tm] →
      ((run s ops).debounced = s.debounced ∧
        (run s ops).mutations = s.mutations ∧
        (run s ops).pending = [tm]) ∨
      ((run s ops).debounced = tm.val ∧
        (run s ops).mutations = s.mutations ++ [tm.val] ∧
        (run s ops).pending = []) := by
  induction ops with
  | nil => intro s tm h hp; exact Or.inl ⟨rfl, rfl, hp⟩
  | cons op ops ih =>
    intro s tm h hp
    obtain ⟨a1, a2, a3, a4⟩ := applyOp_inactive s op h
    rw [run_cons]
    by_cases hle : tm.fireAt ≤ op.time
    · rw [fireDue_of_single_due s op.time tm hp hle] at a1 a2 a3
      have hfp : (applyOp s op).pending = [] :=
        a3.trans (fireTimer_single_pending s tm hp)
      obtain ⟨b1, b2, b3, b4⟩ := run_inactive_nil ops (applyOp s op) a4 hfp
      refine Or.inr ⟨?_, ?_, b3⟩
      · rw [b1, a1]; simp [fireTimer]
      · rw [b2, a2]; simp [fireTimer]
    · rw [fireDue_of_single_early s op.time tm hp (Nat.lt_of_not_le hle)] at a1 a2 a3
      obtain hcase | hcase := ih (applyOp s op) tm a4 (a3.trans hp)
      · exact Or.inl ⟨hcase.1.trans a1, hcase.2.1.trans a2, hcase.2.2⟩
      · refine Or.inr ⟨hcase.1, ?_, hcase.2.2⟩
        rw [hcase.2.1, a2]

/-- Construction-time error taxonomy named by the spec. -/
inductive CreateError where
  | invalidSource
deriving Repr, DecidableEq

/-- A host reactive cell as the constructor sees it: its current value and
whether the host has already torn it down (a disposed cell is inert: it
delivers no further change notifications). -/
structure SourceCell (T : Type) where
  value : T
  disposed : Bool
deriving Repr, DecidableEq

/-- The constructor call `useDebounce(source, delay)` (lines 28-32) viewed
through a fallible-construction interface: the code reads `source.value`,
declares the `timer` variable and registers the watcher.  It inspects no
liveness information about `source` and contains no `throw`, so
construction returns a pipeline for every source, disposed or not. -/
def useDebounceCreate (src : SourceCell T) (delay : Nat) :
    Except CreateError (State T) :=
  Except.ok (useDebounceInit src.value delay)

/-- The delay default declared on line 28: `delay = 300`. -/
def defaultDelay : Nat := 300

/-- Pipeline constructed by `useDebounce(source)` with the delay argument
omitted: the default parameter value of line 28 applies. -/
def useDebounceInitDefault (v0 : T) : State T :=
  useDebounceInit v0 defaultDelay

/-- Concrete pipeline over Nat: source written to 1 at t=0 (scheduling a
timeout due at t=300) and the watcher stopped at t=100 while that timeout
is still pending. -/
def disposedExample : State Nat :=
  run (useDebounceInit 0 300) [Op.write 0 1, Op.dispose 100]

/-- Concrete pipeline over Nat whose debounced cell has settled at 10 with
a timeout pending: used to exercise a change notification carrying the
already-settled value. -/
def sampleSettled : State Nat :=
  run (useDebounceInit 10 300) [Op.write 0 10]

/-- C1: for every burst of change notifications v1, ..., vN delivered at
intervals each shorter than `delay`, once `delay` ms elapse after the last
change, the debounced cell equals vN and was mutated exactly once over the
whole burst (the mutation log of the trace is exactly `[vN]`: never an
earlier vi, never more than one write). -/
theorem useDebounce_burst_single_settle (v0 : T) (delay t1 : Nat) (v1 : T)
    (rest : List (Nat × T))
    (hchain : List.Chain (fun p q => q.1 < p.1 + delay) (t1, v1) rest) :
    (run (useDebounceInit v0 delay)
        (writesOps ((t1, v1) :: rest) ++
          [Op.settle ((rest.getLastD (t1, v1)).1 + delay)])).debounced =
      (rest.getLastD (t1, v1)).2 ∧
    (run (useDebounceInit v0 delay)
        (writesOps ((t1, v1) :: rest) ++
          [Op.settle ((rest.getLastD (t1, v1)).1 + delay)])).mutations =
      [(rest.getLastD (t1, v1)).2] := by
  have hfd0 : fireDue (useDebounceInit v0 delay) t1 = useDebounceInit v0 delay :=
    fireDue_of_nil _ t1 rfl
  obtain ⟨w1, w2, w3, w4, w5, w6, w7, w8, w9⟩ :=
    applyOp_write_shape (useDebounceInit v0 delay) t1 v1 (Or.inl rfl) rfl
  rw [hfd0] at w7 w8
  set s1 := applyOp (useDebounceInit v0 delay) (Op.write t1 v1) with hs1
  have hdel : s1.delay = delay := w5
  have hpend1 : s1.pending = [⟨0, t1 + s1.delay, v1⟩] := by rw [hdel]; exact w1
  have htv1 : s1.timerVar = some 0 := w2
  have hchain1 : List.Chain (fun p q => q.1 < p.1 + s1.delay) (t1, v1) rest := by
    rw [hdel]; exact hchain
  obtain ⟨m, r1, r2, r3, r4, r5, r6⟩ :=
    burst_aux rest s1 (t1, v1) 0 w4 hpend1 htv1 hchain1
  set b := rest.getLastD (t1, v1) with hb
  set s2 := run s1 (writesOps rest) with hs2
  have hdue : (⟨m, b.1 + s1.delay, b.2⟩ : Timer T).fireAt ≤ b.1 + delay := by
    simp [hdel]
  have hfire := fireDue_of_single_due s2 (b.1 + delay) ⟨m, b.1 + s1.delay, b.2⟩ r1 hdue
  have htrace : run (useDebounceInit v0 delay)
      (writesOps ((t1, v1) :: rest) ++ [Op.settle (b.1 + delay)]) =
      applyOp s2 (Op.settle (b.1 + delay)) := by
    rw [run_append]
    rfl
  have happ : applyOp s2 (Op.settle (b.1 + delay)) = fireDue s2 (b.1 + delay) := rfl
  constructor
  · rw [htrace, happ, hfire]
    simp [fireTimer]
  · rw [htrace, happ, hfire]
    simp only [fireTimer]
    rw [r6, w8]
    simp [useDebounceInit]

/-- Witness for C1 at the spec's concrete scenario shape: delay 300 and a
three-change burst at t=0, 100, 200 with values 1, 2, 3. -/
theorem useDebounce_burst_single_settle_witness :
    List.Chain (fun p q : Nat × Nat => q.1 < p.1 + 300) (0, 1) [(100, 2), (200, 3)] ∧
    (run (useDebounceInit 0 300)
        (writesOps ((0, 1) :: [(100, 2), (200, 3)]) ++
          [Op.settle (([(100, 2), (200, 3)].getLastD (0, 1)).1 + 300)])).debounced =
      ([(100, 2), (200, 3)].getLastD (0, 1)).2 ∧
    (run (useDebounceInit 0 300)
        (writesOps ((0, 1) :: [(100, 2), (200, 3)]) ++
          [Op.settle (([(100, 2), (200, 3)].getLastD (0, 1)).1 + 300)])).mutations =
      [([(100, 2), (200, 3)].getLastD (0, 1)).2] :=
  ⟨List.Chain.cons (by decide) (List.Chain.cons (by decide) List.Chain.nil),
    (useDebounce_burst_single_settle 0 300 0 1 [(100, 2), (200, 3)]
      (List.Chain.cons (by decide) (List.Chain.cons (by decide) List.Chain.nil))).1,
    (useDebounce_burst_single_settle 0 300 0 1 [(100, 2), (200, 3)]
      (List.Chain.cons (by decide) (List.Chain.cons (by decide) List.Chain.nil))).2⟩

/-- C2: immediately after construction the debounced cell equals the
source cell's value at that instant, no timeout is pending, and the timer
variable is unassigned: construction alone schedules nothing. -/
theorem useDebounce_initial_passthrough (v0 : T) (delay : Nat) :
    (useDebounceInit v0 delay).debounced = v0 ∧
    (useDebounceInit v0 delay).pending = [] ∧
    (useDebounceInit v0 delay).timerVar = none :=
  ⟨rfl, rfl, rfl⟩

/-- C3 counterexample: start at 0 with delay 300, write 1 at t=0, stop the
watcher at t=100 while the timeout is pending; at dispose time the
debounced cell still reads 0, yet at t=400 the pending timeout has fired
and mutated it to 1 — the claim that the dispose-time value persists
forever and no mutation happens after disposal is false on this code. -/
theorem useDebounce_dispose_pending_fires_cex :
    disposedExample.watcherActive = false ∧
    disposedExample.pending ≠ [] ∧
    disposedExample.debounced = 0 ∧
    (run disposedExample [Op.settle 400]).debounced = 1 ∧
    (run disposedExample [Op.settle 400]).mutations ≠ disposedExample.mutations :=
  ⟨by decide, by decide, by decide, by decide, by decide⟩

/-- C3 amended: stopping the watcher stops all future scheduling — from
then on the pipeline's state can change in exactly one way: a timeout that
was already pending at dispose time still fires (it is not cancelled) and
performs one final mutation, writing its captured value; other than that
single write nothing ever changes the debounced cell again. -/
theorem useDebounce_after_dispose (s : State T) (ops : List (Op T))
    (hin : s.watcherActive = false) (hone : s.pending.length ≤ 1) :
    ((run s ops).debounced = s.debounced ∧ (run s ops).mutations = s.mutations ∧
      (run s ops).pending = s.pending) ∨
    (∃ tm, s.pending = [tm] ∧ (run s ops).debounced = tm.val ∧
      (run s ops).mutations = s.mutations ++ [tm.val] ∧ (run s ops).pending = []) := by
  have hshape : s.pending = [] ∨ ∃ tm, s.pending = [tm] := by
    cases hp : s.pending with
    | nil => exact Or.inl rfl
    | cons tm rest =>
      cases rest with
      | nil => exact Or.inr ⟨tm, rfl⟩
      | cons tm2 rest2 =>
        rw [hp] at hone
        simp at hone
  rcases hshape with hp | ⟨tm, hp⟩
  · obtain ⟨b1, b2, b3, -⟩ := run_inactive_nil ops s hin hp
    exact Or.inl ⟨b1, b2, b3.trans hp.symm⟩
  · obtain hc | hc := run_inactive_single ops s tm hin hp
    · exact Or.inl ⟨hc.1, hc.2.1, hc.2.2.trans hp.symm⟩
    · exact Or.inr ⟨tm, hp, hc.1, hc.2.1, hc.2.2⟩

/-- Witness for the amended C3 on the concrete disposed pipeline. -/
theorem useDebounce_after_dispose_witness :
    disposedExample.watcherActive = false ∧
    disposedExample.pending.length ≤ 1 ∧
    (((run disposedExample [Op.settle 400]).debounced = disposedExample.debounced ∧
        (run disposedExample [Op.settle 400]).mutations = disposedExample.mutations ∧
        (run disposedExample [Op.settle 400]).pending = disposedExample.pending) ∨
      (∃ tm, disposedExample.pending = [tm] ∧
        (run disposedExample [Op.settle 400]).debounced = tm.val ∧
        (run disposedExample [Op.settle 400]).mutations = disposedExample.mutations ++ [tm.val] ∧
        (run disposedExample [Op.settle 400]).pending = [])) :=
  ⟨by decide, by decide,
    useDebounce_after_dispose disposedExample [Op.settle 400] (by decide) (by decide)⟩

/-- C4 counterexample: constructing over an already-disposed source does
not fail — it silently returns a pipeline initialized to the dead source's
value, so the claim that construction raises InvalidSourceError on a
disposed source is false on this code. -/
theorem useDebounceCreate_disposed_cex :
    useDebounceCreate (⟨0, true⟩ : SourceCell Nat) 300 =
      Except.ok (useDebounceInit 0 300) := rfl

/-- C4 amended: useDebounce performs no validation of its source at all:
for every source cell, disposed or live, and every delay, construction
succeeds and raises no error of any kind (in particular it never raises
InvalidSourceError); over an inert source this silently yields a pipeline
that will never update. -/
theorem useDebounceCreate_never_fails (src : SourceCell T) (delay : Nat) :
    useDebounceCreate src delay = Except.ok (useDebounceInit src.value delay) :=
  rfl

/-- C5: whatever happened before, if the source's last change notification
carries v at time tN and no further change occurs, then at any instant
tEnd at least `delay` ms later the debounced cell equals v. -/
theorem useDebounce_liveness_after_quiescence (v0 : T) (delay : Nat)
    (ws : List (Nat × T)) (tN : Nat) (vN : T) (tEnd : Nat)
    (h : tN + delay ≤ tEnd) :
    (run (useDebounceInit v0 delay)
        (writesOps (ws ++ [(tN, vN)]) ++ [Op.settle tEnd])).debounced = vN := by
  have hInv := Inv_run (useDebounceInit v0 delay) (writesOps ws) (Inv_init v0 delay)
  set s1 := run (useDebounceInit v0 delay) (writesOps ws) with hs1
  have ha : s1.watcherActive = true := (run_writesOps_active ws _).trans rfl
  have hdel : s1.delay = delay := run_delay _ _
  obtain ⟨w1, -, -, -, -, -, -, -, -⟩ := applyOp_write_shape s1 tN vN hInv.1 ha
  set s2 := applyOp s1 (Op.write tN vN) with hs2
  have hdue : (⟨s1.nextId, tN + s1.delay, vN⟩ : Timer T).fireAt ≤ tEnd := by
    simp only [hdel]
    exact h
  have hfire := fireDue_of_single_due s2 tEnd ⟨s1.nextId, tN + s1.delay, vN⟩ w1 hdue
  have htrace : run (useDebounceInit v0 delay)
      (writesOps (ws ++ [(tN, vN)]) ++ [Op.settle tEnd]) =
      applyOp s2 (Op.settle tEnd) := by
    rw [show writesOps (ws ++ [(tN, vN)]) = writesOps ws ++ [Op.write tN vN] by
      simp [writesOps]]
    rw [run_append, run_append]
    rfl
  rw [htrace, show applyOp s2 (Op.settle tEnd) = fireDue s2 tEnd from rfl, hfire]
  simp [fireTimer]

/-- Witness for C5: one write of 2 at t=100 after an earlier write of 1;
observed at t=400 with delay 300 the debounced cell reads 2. -/
theorem useDebounce_liveness_after_quiescence_witness :
    100 + 300 ≤ 400 ∧
    (run (useDebounceInit 0 300)
        (writesOps ([(0, 1)] ++ [(100, 2)]) ++ [Op.settle 400])).debounced = 2 :=
  ⟨by decide, useDebounce_liveness_after_quiescence 0 300 [(0, 1)] 100 2 400 (by decide)⟩

/-- C6: along every trace of events, a pipeline instance owns at most one
pending (scheduled, uncancelled, not-yet-fired) timeout in the host
scheduler's queue at every instant. -/
theorem useDebounce_at_most_one_pending_timer (v0 : T) (delay : Nat)
    (ops : List (Op T)) :
    (run (useDebounceInit v0 delay) ops).pending.length ≤ 1 := by
  obtain ⟨hA, -, -⟩ := Inv_run (useDebounceInit v0 delay) ops (Inv_init v0 delay)
  rcases hA with hp | ⟨tm, hp, -⟩ <;> simp [hp]

/-- C7: along every trace, the debounced cell's value is one the source
cell held at some past instant: either the construction-time value or a
value written to the source since; it is never synthesized. -/
theorem useDebounce_value_from_source_history (v0 : T) (delay : Nat)
    (ops : List (Op T)) :
    (run (useDebounceInit v0 delay) ops).debounced ∈ v0 :: opsWriteValues ops := by
  obtain ⟨-, hdm, -⟩ := Inv_run (useDebounceInit v0 delay) ops (Inv_init v0 delay)
  rw [run_sourceHist] at hdm
  simpa [useDebounceInit] using hdm

/-- C8: a change notification whose carried value v equals the
currently-settled debounced value is treated like any other: the pending
timeout is cancelled (the queue afterwards holds only the fresh entry,
whose handle differs from the old one) and a fresh full-delay timeout for
v is scheduled; no value-equality check short-circuits this, and no
mutation happens at notification time. -/
theorem useDebounce_no_value_equality_check (s : State T) (t : Nat) (v : T)
    (tm : Timer T) (hv : v = s.debounced) (ha : s.watcherActive = true)
    (hp : s.pending = [tm]) (htv : s.timerVar = some tm.id)
    (hfresh : tm.id < s.nextId) (hpend : t < tm.fireAt) :
    (applyOp s (Op.write t v)).pending = [⟨s.nextId, t + s.delay, v⟩] ∧
    (applyOp s (Op.write t v)).timerVar = some s.nextId ∧
    tm.id ≠ s.nextId ∧
    (applyOp s (Op.write t v)).debounced = s.debounced ∧
    (applyOp s (Op.write t v)).mutations = s.mutations := by
  have hfd : fireDue s t = s := fireDue_of_single_early s t tm hp hpend
  obtain ⟨w1, w2, -, -, -, -, w7, w8, -⟩ :=
    applyOp_write_shape s t v (Or.inr ⟨tm, hp, htv⟩) ha
  rw [hfd] at w7 w8
  exact ⟨w1, w2, Nat.ne_of_lt hfresh, w7, w8⟩

/-- Witness for C8: the settled pipeline at 10 receives a notification
carrying 10 again at t=100; the old timeout (handle 0) is replaced by a
fresh one (handle 1) due at t=400 and nothing is written. -/
theorem useDebounce_no_value_equality_check_witness :
    (10 : Nat) = sampleSettled.debounced ∧
    sampleSettled.watcherActive = true ∧
    sampleSettled.pending = [⟨0, 300, 10⟩] ∧
    sampleSettled.timerVar = some ((⟨0, 300, 10⟩ : Timer Nat).id) ∧
    (⟨0, 300, 10⟩ : Timer Nat).id < sampleSettled.nextId ∧
    100 < (⟨0, 300, 10⟩ : Timer Nat).fireAt ∧
    ((applyOp sampleSettled (Op.write 100 10)).pending =
        [⟨sampleSettled.nextId, 100 + sampleSettled.delay, 10⟩] ∧
      (applyOp sampleSettled (Op.write 100 10)).timerVar = some sampleSettled.nextId ∧
      (⟨0, 300, 10⟩ : Timer Nat).id ≠ sampleSettled.nextId ∧
      (applyOp sampleSettled (Op.write 100 10)).debounced = sampleSettled.debounced ∧
      (applyOp sampleSettled (Op.write 100 10)).mutations = sampleSettled.mutations) :=
  ⟨by decide, by decide, by decide, by decide, by decide, by decide,
    useDebounce_no_value_equality_check sampleSettled 100 10 ⟨0, 300, 10⟩
      (by decide) (by decide) (by decide) (by decide) (by decide) (by decide)⟩

/-- C10: omitting the delay argument is the same as passing 300: the two
pipelines have identical state — in particular identical debounced
values — after every trace of events. -/
theorem useDebounce_default_delay_300 (v0 : T) (ops : List (Op T)) :
    run (useDebounceInitDefault v0) ops = run (useDebounceInit v0 300) ops :=
  rfl

/-!
Two independent `useDebounce` calls over different source refs.  Each call
has its own closure-local `debounced` ref and `timer` variable, but both
share the single host scheduler: one queue of pending timeouts and one
global supply of timeout handles.  A pending entry is tagged with the
instance it will write to (a sum value carrying the captured value).  This
is the setting of the spec's design note: the timer state must be
per-instance so that two pipelines do not interfere.
-/

/-- A pending timeout in the shared host queue: globally unique handle,
absolute fire time, and which instance's debounced ref it will write,
with the captured value. -/
structure PTimer (T U : Type) where
  id : Nat
  fireAt : Nat
  target : T ⊕ U
deriving Repr, DecidableEq

/-- Joint state of two pipeline instances A (values in T) and B (values in
U) sharing the host scheduler. -/
structure PairState (T U : Type) where
  aDelay : Nat
  aDebounced : T
  aTimerVar : Option Nat
  aActive : Bool
  aMutations : List T
  bDelay : Nat
  bDebounced : U
  bTimerVar : Option Nat
  bActive : Bool
  bMutations : List U
  pending : List (PTimer T U)
  nextId : Nat
deriving Repr, DecidableEq

/-- Both pipelines constructed (each `useDebounce` call initializes its
debounced ref to its own source's value and schedules nothing). -/
def pairInit (a0 : T) (da : Nat) (b0 : U) (db : Nat) : PairState T U :=
  { aDelay := da, aDebounced := a0, aTimerVar := none, aActive := true
    aMutations := []
    bDelay := db, bDebounced := b0, bTimerVar := none, bActive := true
    bMutations := []
    pending := [], nextId := 0 }

/-- A due timeout's callback runs: it writes the captured value to the one
debounced ref its closure refers to, and the host removes the entry. -/
def fireTimerP (s : PairState T U) (tm : PTimer T U) : PairState T U :=
  match tm.target with
  | Sum.inl v =>
    { s with aDebounced := v, aMutations := s.aMutations ++ [v]
             pending := s.pending.filter (fun u => u.id ≠ tm.id) }
  | Sum.inr v =>
    { s with bDebounced := v, bMutations := s.bMutations ++ [v]
             pending := s.pending.filter (fun u => u.id ≠ tm.id) }

/-- Advance the shared host clock to time `t`: every due timeout of either
instance runs, in queue order. -/
def fireDueP (s : PairState T U) (t : Nat) : PairState T U :=
  (s.pending.filter (fun tm => tm.fireAt ≤ t)).foldl fireTimerP s

/-- Instance A's `clearTimeout(timer)`: removes the entry whose handle is
A's `timer` variable from the shared queue. -/
def clearTimeoutA (s : PairState T U) : PairState T U :=
  match s.aTimerVar with
  | none => s
  | some i => { s with pending := s.pending.filter (fun tm => tm.id ≠ i) }

/-- Instance B's `clearTimeout(timer)`. -/
def clearTimeoutB (s : PairState T U) : PairState T U :=
  match s.bTimerVar with
  | none => s
  | some i => { s with pending := s.pending.filter (fun tm => tm.id ≠ i) }

/-- Instance A's watch callback on a change notification at time `t`
carrying `v`: cancel A's timeout, schedule a fresh one (globally fresh
handle) due at `t + aDelay` writing to A. -/
def onChangeA (s : PairState T U) (t : Nat) (v : T) : PairState T U :=
  let s1 := clearTimeoutA s
  { s1 with pending := s1.pending ++ [⟨s1.nextId, t + s1.aDelay, Sum.inl v⟩]
            aTimerVar := some s1.nextId, nextId := s1.nextId + 1 }

/-- Instance B's watch callback. -/
def onChangeB (s : PairState T U) (t : Nat) (v : U) : PairState T U :=
  let s1 := clearTimeoutB s
  { s1 with pending := s1.pending ++ [⟨s1.nextId, t + s1.bDelay, Sum.inr v⟩]
            bTimerVar := some s1.nextId, nextId := s1.nextId + 1 }

/-- Timed events for the pair: a change notification delivered to A, one
delivered to B, or passage of time. -/
inductive PairOp (T U : Type) where
  | writeA (t : Nat) (v : T)
  | writeB (t : Nat) (v : U)
  | settleP (t : Nat)
deriving Repr, DecidableEq

/-- Process one event of the pair system. -/
def applyPairOp (s : PairState T U) (op : PairOp T U) : PairState T U :=
  match op with
  | .writeA t v =>
    let s1 := fireDueP s t
    if s1.aActive then onChangeA s1 t v else s1
  | .writeB t v =>
    let s1 := fireDueP s t
    if s1.bActive then onChangeB s1 t v else s1
  | .settleP t => fireDueP s t

/-- Run the pair system through a sequence of timed events. -/
def runPair (s : PairState T U) (ops : List (PairOp T U)) : PairState T U :=
  ops.foldl applyPairOp s

/-- Host-level invariant of the shared scheduler: handles in the queue are
pairwise distinct and below the allocation counter, each instance's timer
variable holds an already-allocated handle, and neither instance's timer
variable names a queue entry belonging to the other instance. -/
def PInv (s : PairState T U) : Prop :=
  s.pending.Pairwise (fun u w => u.id ≠ w.id) ∧
  (∀ tm ∈ s.pending, tm.id < s.nextId) ∧
  (∀ i, s.aTimerVar = some i → i < s.nextId) ∧
  (∀ i, s.bTimerVar = some i → i < s.nextId) ∧
  (∀ tm ∈ s.pending, tm.target.isRight = true → s.aTimerVar ≠ some tm.id) ∧
  (∀ tm ∈ s.pending, tm.target.isLeft = true → s.bTimerVar ≠ some tm.id)

theorem PInv_pairInit (a0 : T) (da : Nat) (b0 : U) (db : Nat) :
    PInv (pairInit a0 da b0 db) := by
  refine ⟨?_, ?_, ?_, ?_, ?_, ?_⟩ <;> simp [pairInit]

/-- PInv only concerns the queue, the timer variables and the counter, and
is preserved whenever the queue shrinks by a filter and those other fields
stay put. -/
theorem PInv_filter (s s' : PairState T U) (p : PTimer T U → Bool) (h : PInv s)
    (hp : s'.pending = s.pending.filter p)
    (ha : s'.aTimerVar = s.aTimerVar) (hb : s'.bTimerVar = s.bTimerVar)
    (hn : s'.nextId = s.nextId) : PInv s' := by
  obtain ⟨h1, h2, h3, h4, h5, h6⟩ := h
  refine ⟨?_, ?_, ?_, ?_, ?_, ?_⟩
  · rw [hp]; exact h1.filter p
  · intro tm hmem
    rw [hp] at hmem
    rw [hn]
    exact h2 tm (List.mem_of_mem_filter hmem)
  · intro i hi
    rw [ha] at hi
    rw [hn]
    exact h3 i hi
  · intro i hi
    rw [hb] at hi
    rw [hn]
    exact h4 i hi
  · intro tm hmem ht
    rw [hp] at hmem
    rw [ha]
    exact h5 tm (List.mem_of_mem_filter hmem) ht
  · intro tm hmem ht
    rw [hp] at hmem
    rw [hb]
    exact h6 tm (List.mem_of_mem_filter hmem) ht

theorem fireTimerP_fields (s : PairState T U) (tm : PTimer T U) :
    (fireTimerP s tm).pending = s.pending.filter (fun u => u.id ≠ tm.id) ∧
    (fireTimerP s tm).aTimerVar = s.aTimerVar ∧
    (fireTimerP s tm).bTimerVar = s.bTimerVar ∧
    (fireTimerP s tm).nextId = s.nextId ∧
    (fireTimerP s tm).aActive = s.aActive ∧
    (fireTimerP s tm).bActive = s.bActive ∧
    (fireTimerP s tm).aDelay = s.aDelay ∧
    (fireTimerP s tm).bDelay = s.bDelay := by
  cases htm : tm.target <;> simp [fireTimerP, htm]

theorem PInv_fireTimerP (s : PairState T U) (tm : PTimer T U) (h : PInv s) :
    PInv (fireTimerP s tm) := by
  obtain ⟨c1, c2, c3, c4, c5, c6, c7, c8⟩ := fireTimerP_fields s tm
  exact PInv_filter s _ _ h c1 c2 c3 c4

theorem PInv_foldl_fireTimerP (l : List (PTimer T U)) :
    ∀ s : PairState T U, PInv s → PInv (l.foldl fireTimerP s) := by
  induction l with
  | nil => intro s h; exact h
  | cons a l ih => intro s h; exact ih _ (PInv_fireTimerP s a h)

theorem PInv_fireDueP (s : PairState T U) (t : Nat) (h : PInv s) :
    PInv (fireDueP s t) :=
  PInv_foldl_fireTimerP _ s h

theorem clearTimeoutA_fields (s : PairState T U) :
    (clearTimeoutA s).aDebounced = s.aDebounced ∧
    (clearTimeoutA s).aMutations = s.aMutations ∧
    (clearTimeoutA s).bDebounced = s.bDebounced ∧
    (clearTimeoutA s).bMutations = s.bMutations ∧
    (clearTimeoutA s).aTimerVar = s.aTimerVar ∧
    (clearTimeoutA s).bTimerVar = s.bTimerVar ∧
    (clearTimeoutA s).nextId = s.nextId ∧
    (clearTimeoutA s).aActive = s.aActive ∧
    (clearTimeoutA s).bActive = s.bActive ∧
    (clearTimeoutA s).aDelay = s.aDelay ∧
    (clearTimeoutA s).bDelay = s.bDelay := by
  cases htv : s.aTimerVar <;> simp [clearTimeoutA, htv]

theorem PInv_clearTimeoutA (s : PairState T U) (h : PInv s) :
    PInv (clearTimeoutA s) := by
  cases htv : s.aTimerVar with
  | none => simpa [clearTimeoutA, htv] using h
  | some i =>
    exact PInv_filter s (clearTimeoutA s) (fun tm => tm.id ≠ i) h
      (by simp [clearTimeoutA, htv]) (by simp [clearTimeoutA, htv])
      (by simp [clearTimeoutA, htv]) (by simp [clearTimeoutA, htv])

theorem clearTimeoutB_fields (s : PairState T U) :
    (clearTimeoutB s).aDebounced = s.aDebounced ∧
    (clearTimeoutB s).aMutations = s.aMutations ∧
    (clearTimeoutB s).bDebounced = s.bDebounced ∧
    (clearTimeoutB s).bMutations = s.bMutations ∧
    (clearTimeoutB s).aTimerVar = s.aTimerVar ∧
    (clearTimeoutB s).bTimerVar = s.bTimerVar ∧
    (clearTimeoutB s).nextId = s.nextId ∧
    (clearTimeoutB s).aActive = s.aActive ∧
    (clearTimeoutB s).bActive = s.bActive ∧
    (clearTimeoutB s).aDelay = s.aDelay ∧
    (clearTimeoutB s).bDelay = s.bDelay := by
  cases htv : s.bTimerVar <;> simp [clearTimeoutB, htv]

theorem PInv_clearTimeoutB (s : PairState T U) (h : PInv s) :
    PInv (clearTimeoutB s) := by
  cases htv : s.bTimerVar with
  | none => simpa [clearTimeoutB, htv] using h
  | some i =>
    exact PInv_filter s (clearTimeoutB s) (fun tm => tm.id ≠ i) h
      (by simp [clearTimeoutB, htv]) (by simp [clearTimeoutB, htv])
      (by simp [clearTimeoutB, htv]) (by simp [clearTimeoutB, htv])

theorem PInv_onChangeA (s : PairState T U) (t : Nat) (v : T) (h : PInv s) :
    PInv (onChangeA s t v) := by
  obtain ⟨p1, p2, p3, p4, p5, p6⟩ := PInv_clearTimeoutA s h
  have e1 : (onChangeA s t v).pending =
      (clearTimeoutA s).pending ++
        [⟨(clearTimeoutA s).nextId, t + (clearTimeoutA s).aDelay, Sum.inl v⟩] := by
    simp [onChangeA]
  have e2 : (onChangeA s t v).aTimerVar = some (clearTimeoutA s).nextId := by
    simp [onChangeA]
  have e3 : (onChangeA s t v).bTimerVar = (clearTimeoutA s).bTimerVar := by
    simp [onChangeA]
  have e4 : (onChangeA s t v).nextId = (clearTimeoutA s).nextId + 1 := by
    simp [onChangeA]
  unfold PInv
  refine ⟨?_, ?_, ?_, ?_, ?_, ?_⟩
  · rw [e1, List.pairwise_append]
    refine ⟨p1, List.pairwise_singleton _ _, ?_⟩
    intro u hu x hx
    simp only [List.mem_singleton] at hx
    subst hx
    exact Nat.ne_of_lt (p2 u hu)
  · intro tm hmem
    rw [e1] at hmem
    rw [e4]
    rcases List.mem_append.mp hmem with hm | hm
    · exact Nat.lt_succ_of_lt (p2 tm hm)
    · simp only [List.mem_singleton] at hm
      subst hm
      exact Nat.lt_succ_self _
  · intro i hi
    rw [e2] at hi
    rw [e4, ← Option.some.inj hi]
    exact Nat.lt_succ_self _
  · intro i hi
    rw [e3] at hi
    rw [e4]
    exact Nat.lt_succ_of_lt (p4 i hi)
  · intro tm hmem ht
    rw [e1] at hmem
    rw [e2]
    rcases List.mem_append.mp hmem with hm | hm
    · intro hEq
      exact absurd (Option.some.inj hEq).symm (Nat.ne_of_lt (p2 tm hm))
    · simp only [List.mem_singleton] at hm
      subst hm
      simp at ht
  · intro tm hmem ht
    rw [e1] at hmem
    rw [e3]
    rcases List.mem_append.mp hmem with hm | hm
    · exact p6 tm hm ht
    · simp only [List.mem_singleton] at hm
      subst hm
      intro hEq
      exact absurd (p4 _ hEq) (Nat.lt_irrefl _)

theorem PInv_onChangeB (s : PairState T U) (t : Nat) (v : U) (h : PInv s) :
    PInv (onChangeB s t v) := by
  obtain ⟨p1, p2, p3, p4, p5, p6⟩ := PInv_clearTimeoutB s h
  have e1 : (onChangeB s t v).pending =
      (clearTimeoutB s).pending ++
        [⟨(clearTimeoutB s).nextId, t + (clearTimeoutB s).bDelay, Sum.inr v⟩] := by
    simp [onChangeB]
  have e2 : (onChangeB s t v).bTimerVar = some (clearTimeoutB s).nextId := by
    simp [onChangeB]
  have e3 : (onChangeB s t v).aTimerVar = (clearTimeoutB s).aTimerVar := by
    simp [onChangeB]
  have e4 : (onChangeB s t v).nextId = (clearTimeoutB s).nextId + 1 := by
    simp [onChangeB]
  unfold PInv
  refine ⟨?_, ?_, ?_, ?_, ?_, ?_⟩
  · rw [e1, List.pairwise_append]
    refine ⟨p1, List.pairwise_singleton _ _, ?_⟩
    intro u hu x hx
    simp only [List.mem_singleton] at hx
    subst hx
    exact Nat.ne_of_lt (p2 u hu)
  · intro tm hmem
    rw [e1] at hmem
    rw [e4]
    rcases List.mem_append.mp hmem with hm | hm
    · exact Nat.lt_succ_of_lt (p2 tm hm)
    · simp only [List.mem_singleton] at hm
      subst hm
      exact Nat.lt_succ_self _
  · intro i hi
    rw [e3] at hi
    rw [e4]
    exact Nat.lt_succ_of_lt (p3 i hi)
  · intro i hi
    rw [e2] at hi
    rw [e4, ← Option.some.inj hi]
    exact Nat.lt_succ_self _
  · intro tm hmem ht
    rw [e1] at hmem
    rw [e3]
    rcases List.mem_append.mp hmem with hm | hm
    · exact p5 tm hm ht
    · simp only [List.mem_singleton] at hm
      subst hm
      intro hEq
      exact absurd (p3 _ hEq) (Nat.lt_irrefl _)
  · intro tm hmem ht
    rw [e1] at hmem
    rw [e2]
    rcases List.mem_append.mp hmem with hm | hm
    · intro hEq
      exact absurd (Option.some.inj hEq).symm (Nat.ne_of_lt (p2 tm hm))
    · simp only [List.mem_singleton] at hm
      subst hm
      simp at ht

theorem PInv_applyPairOp (s : PairState T U) (op : PairOp T U) (h : PInv s) :
    PInv (applyPairOp s op) := by
  cases op with
  | writeA t v =>
    have h1 := PInv_fireDueP s t h
    simp only [applyPairOp]
    by_cases hact : (fireDueP s t).aActive = true
    · rw [if_pos hact]; exact PInv_onChangeA _ t v h1
    · rw [if_neg hact]; exact h1
  | writeB t v =>
    have h1 := PInv_fireDueP s t h
    simp only [applyPairOp]
    by_cases hact : (fireDueP s t).bActive = true
    · rw [if_pos hact]; exact PInv_onChangeB _ t v h1
    · rw [if_neg hact]; exact h1
  | settleP t => exact PInv_fireDueP s t h

theorem PInv_runPair (s : PairState T U) (ops : List (PairOp T U)) (h : PInv s) :
    PInv (runPair s ops) := by
  induction ops generalizing s with
  | nil => exact h
  | cons op ops ih => exact ih _ (PInv_applyPairOp s op h)

/-- Filtering by a predicate that keeps every B-owned entry does not
change the B-owned sublist of the queue. -/
theorem filter_right_of_subpred (l : List (PTimer T U)) (p : PTimer T U → Bool)
    (h : ∀ w ∈ l, w.target.isRight = true → p w = true) :
    (l.filter p).filter (fun w => w.target.isRight) =
      l.filter (fun w => w.target.isRight) := by
  induction l with
  | nil => rfl
  | cons a l ih =>
    have ih' := ih (fun w hw hr => h w (List.mem_cons_of_mem a hw) hr)
    by_cases hpa : p a = true
    · by_cases hr : a.target.isRight = true
      · simp [List.filter_cons, hpa, hr, ih']
      · simp [List.filter_cons, hpa, hr, ih']
    · have hr : a.target.isRight = false := by
        by_contra hc
        exact hpa (h a (List.mem_cons_self a l) (by simpa using hc))
      simp [List.filter_cons, hpa, hr, ih']

/-- Running only A-owned timeout callbacks leaves every B-owned piece of
state untouched: B's debounced ref, mutation log and timer variable, and
the B-owned sublist of the queue. -/
theorem foldl_fireTimerP_left (l : List (PTimer T U)) :
    ∀ s : PairState T U,
      (∀ tm ∈ l, tm.target.isLeft = true) →
      (∀ tm ∈ l, ∀ w ∈ s.pending, w.target.isRight = true → tm.id ≠ w.id) →
      (l.foldl fireTimerP s).bDebounced = s.bDebounced ∧
      (l.foldl fireTimerP s).bMutations = s.bMutations ∧
      (l.foldl fireTimerP s).bTimerVar = s.bTimerVar ∧
      (l.foldl fireTimerP s).aTimerVar = s.aTimerVar ∧
      (l.foldl fireTimerP s).aActive = s.aActive ∧
      (l.foldl fireTimerP s).bActive = s.bActive ∧
      (l.foldl fireTimerP s).nextId = s.nextId ∧
      (l.foldl fireTimerP s).aDelay = s.aDelay ∧
      (l.foldl fireTimerP s).pending.filter (fun w => w.target.isRight) =
        s.pending.filter (fun w => w.target.isRight) := by
  induction l with
  | nil => intro s _ _; exact ⟨rfl, rfl, rfl, rfl, rfl, rfl, rfl, rfl, rfl⟩
  | cons a l ih =>
    intro s hleft hid
    have ha : a.target.isLeft = true := hleft a (List.mem_cons_self a l)
    obtain ⟨x, hx⟩ := Sum.isLeft_iff.mp ha
    have hfp : (fireTimerP s a).pending = s.pending.filter (fun u => u.id ≠ a.id) :=
      (fireTimerP_fields s a).1
    have hstep : (fireTimerP s a).pending.filter (fun w => w.target.isRight) =
        s.pending.filter (fun w => w.target.isRight) := by
      rw [hfp]
      exact filter_right_of_subpred _ _ (fun w hw hr => by
        simpa using (hid a (List.mem_cons_self a l) w hw hr).symm)
    have hid' : ∀ tm ∈ l, ∀ w ∈ (fireTimerP s a).pending,
        w.target.isRight = true → tm.id ≠ w.id := by
      intro tm hmem w hw hr
      rw [hfp] at hw
      exact hid tm (List.mem_cons_of_mem a hmem) w (List.mem_of_mem_filter hw) hr
    obtain ⟨b1, b2, b3, b4, b5, b6, b7, b8, b9⟩ :=
      ih (fireTimerP s a) (fun tm hm => hleft tm (List.mem_cons_of_mem a hm)) hid'
    rw [List.foldl_cons]
    refine ⟨?_, ?_, ?_, ?_, ?_, ?_, ?_, ?_, b9.trans hstep⟩
    · rw [b1]; simp [fireTimerP, hx]
    · rw [b2]; simp [fireTimerP, hx]
    · rw [b3]; simp [fireTimerP, hx]
    · rw [b4]; simp [fireTimerP, hx]
    · rw [b5]; simp [fireTimerP, hx]
    · rw [b6]; simp [fireTimerP, hx]
    · rw [b7]; simp [fireTimerP, hx]
    · rw [b8]; simp [fireTimerP, hx]

/-- C9: timer state is per instance, not shared: in a reachable two-
pipeline system, delivering a change notification to pipeline A (which
cancels and reschedules A's timeout, and lets A's due timeouts fire)
leaves pipeline B's debounced cell, mutation log and timer variable
untouched and neither cancels nor replaces any of B's pending timeouts
(the B-owned part of the shared scheduler queue is unchanged), provided no
timeout of B happens to be due at that very instant. -/
theorem useDebounce_instances_independent (a0 : T) (da : Nat) (b0 : U) (db : Nat)
    (ops : List (PairOp T U)) (t : Nat) (v : T)
    (hdue : ∀ tm ∈ (runPair (pairInit a0 da b0 db) ops).pending,
        tm.target.isRight = true → t < tm.fireAt) :
    (applyPairOp (runPair (pairInit a0 da b0 db) ops) (PairOp.writeA t v)).bDebounced =
      (runPair (pairInit a0 da b0 db) ops).bDebounced ∧
    (applyPairOp (runPair (pairInit a0 da b0 db) ops) (PairOp.writeA t v)).bMutations =
      (runPair (pairInit a0 da b0 db) ops).bMutations ∧
    (applyPairOp (runPair (pairInit a0 da b0 db) ops) (PairOp.writeA t v)).bTimerVar =
      (runPair (pairInit a0 da b0 db) ops).bTimerVar ∧
    (applyPairOp (runPair (pairInit a0 da b0 db) ops)
          (PairOp.writeA t v)).pending.filter (fun w => w.target.isRight) =
      (runPair (pairInit a0 da b0 db) ops).pending.filter
        (fun w => w.target.isRight) := by
  set s := runPair (pairInit a0 da b0 db) ops with hs
  have hInv : PInv s := PInv_runPair _ _ (PInv_pairInit a0 da b0 db)
  obtain ⟨p1, p2, p3, p4, p5, p6⟩ := hInv
  have hleft : ∀ tm ∈ s.pending.filter (fun tm => tm.fireAt ≤ t),
      tm.target.isLeft = true := by
    intro tm hm
    have hmem := List.mem_of_mem_filter hm
    have hdec := List.of_mem_filter hm
    cases htm : tm.target with
    | inl x => simp
    | inr x =>
      have hr : tm.target.isRight = true := by simp [htm]
      have h1 := hdue tm hmem hr
      have h2 : tm.fireAt ≤ t := by simpa using hdec
      omega
  have hid : ∀ tm ∈ s.pending.filter (fun tm => tm.fireAt ≤ t),
      ∀ w ∈ s.pending, w.target.isRight = true → tm.id ≠ w.id := by
    intro tm hm w hw hr
    have htm := List.mem_of_mem_filter hm
    have hne : tm ≠ w := by
      intro hEq
      rw [hEq] at hm
      have hl := hleft w hm
      cases hw2 : w.target with
      | inl x => rw [hw2] at hr; simp at hr
      | inr x => rw [hw2] at hl; simp at hl
    exact List.Pairwise.forall (fun x y hxy => Ne.symm hxy) p1 htm hw hne
  obtain ⟨f1, f2, f3, f4, f5, f6, f7, f8, f9⟩ :=
    foldl_fireTimerP_left (s.pending.filter (fun tm => tm.fireAt ≤ t)) s hleft hid
  have hInv1 : PInv (fireDueP s t) := PInv_fireDueP s t ⟨p1, p2, p3, p4, p5, p6⟩
  obtain ⟨q1, q2, q3, q4, q5, q6⟩ := hInv1
  simp only [applyPairOp]
  by_cases hact : (fireDueP s t).aActive = true
  · rw [if_pos hact]
    set s1 := fireDueP s t with hs1
    have hclr : (clearTimeoutA s1).pending.filter (fun w => w.target.isRight) =
        s1.pending.filter (fun w => w.target.isRight) := by
      cases htv : s1.aTimerVar with
      | none => simp [clearTimeoutA, htv]
      | some i =>
        have hpend : (clearTimeoutA s1).pending =
            s1.pending.filter (fun tm => tm.id ≠ i) := by
          simp [clearTimeoutA, htv]
        rw [hpend]
        refine filter_right_of_subpred _ _ (fun w hw hr => ?_)
        have h5w := q5 w hw hr
        rw [htv] at h5w
        simp only [ne_eq, Option.some.injEq] at h5w
        simpa using fun hEq => h5w hEq.symm
    obtain ⟨g1, g2, g3, g4, g5, g6, g7, g8, g9, g10, g11⟩ := clearTimeoutA_fields s1
    have e1 : (onChangeA s1 t v).bDebounced = (clearTimeoutA s1).bDebounced := by
      simp [onChangeA]
    have e2 : (onChangeA s1 t v).bMutations = (clearTimeoutA s1).bMutations := by
      simp [onChangeA]
    have e3 : (onChangeA s1 t v).bTimerVar = (clearTimeoutA s1).bTimerVar := by
      simp [onChangeA]
    have e4 : (onChangeA s1 t v).pending =
        (clearTimeoutA s1).pending ++
          [⟨(clearTimeoutA s1).nextId, t + (clearTimeoutA s1).aDelay, Sum.inl v⟩] := by
      simp [onChangeA]
    refine ⟨?_, ?_, ?_, ?_⟩
    · rw [e1, g3]; exact f1
    · rw [e2, g4]; exact f2
    · rw [e3, g6]; exact f3
    · rw [e4, List.filter_append]
      have hnew : (([⟨(clearTimeoutA s1).nextId, t + (clearTimeoutA s1).aDelay,
          Sum.inl v⟩] : List (PTimer T U)).filter (fun w => w.target.isRight)) = [] := by
        simp
      rw [hnew, List.append_nil, hclr]
      exact f9
  · rw [if_neg hact]
    exact ⟨f1, f2, f3, f9⟩

/-- Witness for C9: pipeline B (delay 300) received a write of 5 at t=0,
so B owns a pending timeout due at t=300; a notification to pipeline A at
t=100 leaves all of B's state and B's queue entry unchanged. -/
theorem useDebounce_instances_independent_witness :
    (∀ tm ∈ (runPair (pairInit 0 300 0 300) [PairOp.writeB 0 5]).pending,
        tm.target.isRight = true → 100 < tm.fireAt) ∧
    ((applyPairOp (runPair (pairInit 0 300 0 300) [PairOp.writeB 0 5])
          (PairOp.writeA 100 7)).bDebounced =
        (runPair (pairInit 0 300 0 300) [PairOp.writeB 0 5]).bDebounced ∧
      (applyPairOp (runPair (pairInit 0 300 0 300) [PairOp.writeB 0 5])
          (PairOp.writeA 100 7)).bMutations =
        (runPair (pairInit 0 300 0 300) [PairOp.writeB 0 5]).bMutations ∧
      (applyPairOp (runPair (pairInit 0 300 0 300) [PairOp.writeB 0 5])
          (PairOp.writeA 100 7)).bTimerVar =
        (runPair (pairInit 0 300 0 300) [PairOp.writeB 0 5]).bTimerVar ∧
      (applyPairOp (runPair (pairInit 0 300 0 300) [PairOp.writeB 0 5])
            (PairOp.writeA 100 7)).pending.filter (fun w => w.target.isRight) =
        (runPair (pairInit 0 300 0 300) [PairOp.writeB 0 5]).pending.filter
          (fun w => w.target.isRight)) :=
  ⟨by decide,
    useDebounce_instances_independent 0 300 0 300 [PairOp.writeB 0 5] 100 7 (by decide)⟩

end Debounce
